import Mathlib

/-!
Verification of the hexplay row layout and renderer (src/format.rs).

The renderer is embedded shallowly: the Rust `Formatter` sink is modelled as
an accumulated `List Char`, and the `std::fmt::Result` returned by
`Display::fmt` is modelled as `Except Unit Unit` (`.ok ()` for `Ok(())`,
`.error ()` for `Err(std::fmt::Error)`).  Writes to the sink never fail
(as for a `String` sink), so every `write!(..)?` simply appends.
Byte values (`u8`) are embedded as `Nat`; theorems that depend on bytes
being machine bytes carry an explicit `b < 256` hypothesis.
-/

namespace Hexplay

/-- One hexadecimal digit, uppercase, as produced by Rust's `{:X}` format. -/
def hexDigit (n : Nat) : Char :=
  if n < 10 then Char.ofNat (48 + n) else Char.ofNat (55 + n)

/-- Hex digits of `n` (most significant first), with explicit fuel so the
definition is structurally recursive.  `n = 0` yields `[]`. -/
def hexDigitsAux : Nat → Nat → List Char
  | 0, _ => []
  | _ + 1, 0 => []
  | fuel + 1, n => hexDigitsAux fuel (n / 16) ++ [hexDigit (n % 16)]

/-- Hex digits of `n`, at least one digit (`0` renders as `"0"`). -/
def hexDigits (n : Nat) : List Char :=
  if n = 0 then ['0'] else hexDigitsAux n n

/-- Rust's `{:0width$X}`: uppercase hex, zero-padded on the left to `width`
characters (longer values keep all their digits). -/
def toPaddedHex (width n : Nat) : List Char :=
  let ds := hexDigits n
  List.replicate (width - ds.length) '0' ++ ds

/-- Rust's `{:02X}` applied to one data byte. -/
def hexByte (b : Nat) : List Char :=
  toPaddedHex 2 b

end Hexplay

namespace byte_mapping

/-- Modelled from the spec: the built-in `CODEPAGE_0850` table is not under
`src/`; the spec describes it as a fixed 256-entry "Latin-1-like" table that
maps printable values to their character and non-printable values to a
placeholder.  We model it as: printable ASCII (0x20..0x7E) maps to itself,
everything else to the placeholder '.'. -/
def CODEPAGE_0850 : List Char :=
  (List.range 256).map (fun b => if 0x20 ≤ b ∧ b ≤ 0x7E then Char.ofNat b else '.')

/-- Modelled from the spec: `byte_mapping::as_char` is not under `src/`; the
spec's mapper contract is "given a byte value (0-255) and a 256-entry table,
returns exactly one display character".  We model it as a table lookup with a
placeholder fallback for out-of-range indices. -/
def as_char (byte : Nat) (cp : List Char) : Char :=
  cp.getD byte '.'

end byte_mapping

namespace Hexplay

/-- The `Padding` struct of src/format.rs. -/
structure Padding where
  left : Nat
  right : Nat
  deriving Repr, DecidableEq

/-- `Padding::new`. -/
def Padding.new (left_padding right_padding : Nat) : Padding :=
  ⟨left_padding, right_padding⟩

/-- `Padding::from_left`. -/
def Padding.from_left (left_padding : Nat) : Padding :=
  ⟨left_padding, 0⟩

/-- `Padding::from_right`. -/
def Padding.from_right (right_padding : Nat) : Padding :=
  ⟨0, right_padding⟩

/-- `Padding::default` (`#[derive(Default)]`). -/
def Padding.default : Padding :=
  ⟨0, 0⟩

/-- The separator threading shared by the three loops of `fmt_bytes_as_hex`:
the first cell is preceded by the initial separator (`""` at the call site),
every later cell by a single space. -/
def writeCells : List Char → List (List Char) → List Char
  | _, [] => []
  | sep, c :: cs => sep ++ c ++ writeCells [' '] cs

/-- `fmt_bytes_as_hex`: `padding.left` two-space placeholder cells, then one
`{:02X}` cell per byte, then `padding.right` two-space placeholder cells,
all separated by single spaces. -/
def fmt_bytes_as_hex (bytes : List Nat) (padding : Padding) : List Char :=
  writeCells []
    (List.replicate padding.left [' ', ' '] ++ bytes.map hexByte ++
      List.replicate padding.right [' ', ' '])

/-- `fmt_bytes_as_char`: one space per placeholder position, one mapped
character per byte. -/
def fmt_bytes_as_char (cp : List Char) (bytes : List Nat) (padding : Padding) : List Char :=
  List.replicate padding.left ' ' ++
    bytes.map (fun b => byte_mapping.as_char b cp) ++
    List.replicate padding.right ' '

/-- `fmt_line`: `ADDRESS  HEXCOLUMNS  | CHARCOLUMNS |`. -/
def fmt_line (address : Nat) (cp : List Char) (bytes : List Nat) (padding : Padding) :
    List Char :=
  toPaddedHex 8 address ++ [' ', ' '] ++
    fmt_bytes_as_hex bytes padding ++ [' ', ' '] ++
    ['|', ' '] ++ fmt_bytes_as_char cp bytes padding ++ [' ', '|']

/-- `calculate_begin_padding` (the `debug_assert!` precondition
`row_width != 0` is carried by the theorems, not the definition). -/
def calculate_begin_padding (address_offset row_width : Nat) : Nat :=
  address_offset % row_width

/-- `calculate_end_padding`. -/
def calculate_end_padding (data_size row_width : Nat) : Nat :=
  (row_width - data_size % row_width) % row_width

/-- The `HexView` struct: configuration of one render. -/
structure HexView where
  address_offset : Nat
  codepage : List Char
  data : List Nat
  row_width : Nat

/-- `HexView::new`: the builder's defaults. -/
def HexView.new (data : List Nat) : HexView :=
  ⟨0, byte_mapping.CODEPAGE_0850, data, 16⟩

/-- One emitted row, in the order the `while` loop of `Display::fmt` calls
`fmt_line`: the row address, the slice of real bytes, and the padding. -/
structure Row where
  address : Nat
  bytes : List Nat
  padding : Padding
  deriving Repr, DecidableEq

/-- Render one row exactly as the corresponding `fmt_line` call does. -/
def renderRow (cp : List Char) (r : Row) : List Char :=
  fmt_line r.address cp r.bytes r.padding

/-- The `while offset + (row_width - 1) < data.len()` loop of
`Display::fmt`, acting on the not-yet-rendered suffix `rest` of the data:
returns the accumulated output, the final address, the final separator and
the remaining suffix. -/
def fmtMidRows (cp : List Char) (w : Nat) (hw : 0 < w) (address : Nat)
    (sep : List Char) (rest : List Nat) : List Char × Nat × List Char × List Nat :=
  if h : w - 1 < rest.length then
    let out := sep ++ fmt_line address cp (rest.take w) Padding.default
    let m := fmtMidRows cp w hw (address + w) ['\n'] (rest.drop w)
    (out ++ m.1, m.2)
  else
    ([], address, sep, rest)
termination_by rest.length
decreasing_by
  simp only [List.length_drop]
  omega

/-- The same loop, recorded as the list of rows it emits instead of the text
it writes: returns the rows, the final address and the remaining suffix. -/
def midRows (w : Nat) (hw : 0 < w) (address : Nat) (rest : List Nat) :
    List Row × Nat × List Nat :=
  if h : w - 1 < rest.length then
    let m := midRows w hw (address + w) (rest.drop w)
    (⟨address, rest.take w, Padding.default⟩ :: m.1, m.2)
  else
    ([], address, rest)
termination_by rest.length
decreasing_by
  simp only [List.length_drop]
  omega

/-- `impl Display for HexView`: the full render.  Returns the characters
written to the formatter together with the `fmt::Result`. -/
def HexView.fmt (v : HexView) : List Char × Except Unit Unit :=
  if hw0 : v.row_width = 0 then
    (("Invalid HexView::width").data, Except.error ())
  else
    let begin_padding := calculate_begin_padding v.address_offset v.row_width
    let end_padding := calculate_end_padding (begin_padding + v.data.length) v.row_width
    let address := v.address_offset - begin_padding
    if v.data.length + begin_padding + end_padding ≤ v.row_width then
      (fmt_line address v.codepage v.data (Padding.new begin_padding end_padding),
        Except.ok ())
    else
      let offset1 := if begin_padding ≠ 0 then v.row_width - begin_padding else 0
      let out1 :=
        if begin_padding ≠ 0 then
          fmt_line address v.codepage (v.data.take (v.row_width - begin_padding))
            (Padding.from_left begin_padding)
        else []
      let address1 := if begin_padding ≠ 0 then address + v.row_width else address
      let sep1 : List Char := if begin_padding ≠ 0 then ['\n'] else []
      let m := fmtMidRows v.codepage v.row_width (Nat.pos_of_ne_zero hw0) address1 sep1
        (v.data.drop offset1)
      let out3 :=
        if end_padding ≠ 0 then
          m.2.2.1 ++ fmt_line m.2.1 v.codepage m.2.2.2 (Padding.from_right end_padding)
        else []
      (out1 ++ m.1 ++ out3, Except.ok ())

/-- The sequence of rows `HexView.fmt` emits (the `fmt_line` call sequence),
following the same branch structure. -/
def HexView.rows (v : HexView) : List Row :=
  if hw0 : v.row_width = 0 then []
  else
    let begin_padding := calculate_begin_padding v.address_offset v.row_width
    let end_padding := calculate_end_padding (begin_padding + v.data.length) v.row_width
    let address := v.address_offset - begin_padding
    if v.data.length + begin_padding + end_padding ≤ v.row_width then
      [⟨address, v.data, Padding.new begin_padding end_padding⟩]
    else
      let offset1 := if begin_padding ≠ 0 then v.row_width - begin_padding else 0
      let first : List Row :=
        if begin_padding ≠ 0 then
          [⟨address, v.data.take (v.row_width - begin_padding),
            Padding.from_left begin_padding⟩]
        else []
      let address1 := if begin_padding ≠ 0 then address + v.row_width else address
      let m := midRows v.row_width (Nat.pos_of_ne_zero hw0) address1 (v.data.drop offset1)
      first ++ m.1 ++
        (if end_padding ≠ 0 then [⟨m.2.1, m.2.2, Padding.from_right end_padding⟩] else [])

/-- Lines joined by single newline separators, with no trailing newline. -/
def joinLines : List (List Char) → List Char
  | [] => []
  | [l] => l
  | l :: ls => l ++ '\n' :: joinLines ls

/-- `joinLines` preceded by an explicit separator before the first line
(the shape `fmtMidRows` produces). -/
def sepJoin (sep : List Char) (ls : List (List Char)) : List Char :=
  if ls.isEmpty then [] else sep ++ joinLines ls

/-- Number of byte-column slots of one row: real bytes plus placeholders. -/
def rowSlots (r : Row) : Nat :=
  r.padding.left + r.bytes.length + r.padding.right

/-! ### Concrete configurations used as counterexamples and witnesses -/

/-- Zero row width with non-empty data. -/
def exC1 : HexView := ⟨0, byte_mapping.CODEPAGE_0850, [0x61], 0⟩

/-- Zero row width with empty data and a nonzero offset. -/
def exC1w : HexView := ⟨4, byte_mapping.CODEPAGE_0850, [], 0⟩

/-- Empty data, aligned offset, default row width. -/
def exC2 : HexView := ⟨0, byte_mapping.CODEPAGE_0850, [], 16⟩

/-- Two bytes at an unaligned offset, single row. -/
def exC2w : HexView := ⟨3, byte_mapping.CODEPAGE_0850, [1, 2], 16⟩

/-- Three bytes at offset 5, row width 16: padding on both sides. -/
def exC3 : HexView := ⟨5, byte_mapping.CODEPAGE_0850, [0x61, 0x61, 0x61], 16⟩

/-- Empty data, aligned offset: the degenerate zero-slot row. -/
def exC6 : HexView := ⟨0, byte_mapping.CODEPAGE_0850, [], 16⟩

/-- Two printable bytes at an unaligned offset. -/
def exC6w : HexView := ⟨5, byte_mapping.CODEPAGE_0850, [0x61, 0x62], 16⟩

/-- Three bytes at offset 5: a single-row render. -/
def exC7 : HexView := ⟨5, byte_mapping.CODEPAGE_0850, [1, 2, 3], 16⟩

/-- Empty data at an unaligned offset. -/
def exC8 : HexView := ⟨5, byte_mapping.CODEPAGE_0850, [], 16⟩

/-- The 16 sequential bytes 0x40..0x4F at offset 0, row width 16. -/
def exC9 : HexView :=
  ⟨0, byte_mapping.CODEPAGE_0850, (List.range 16).map (fun i => 0x40 + i), 16⟩

/-- Three bytes at offset 7. -/
def exC10 : HexView := ⟨7, byte_mapping.CODEPAGE_0850, [9, 10, 11], 16⟩

/-! ### Arithmetic facts about the two padding functions -/

theorem begin_padding_lt (a w : Nat) (hw : w ≠ 0) :
    calculate_begin_padding a w < w :=
  Nat.mod_lt _ (Nat.pos_of_ne_zero hw)

theorem begin_padding_le (a w : Nat) : calculate_begin_padding a w ≤ a :=
  Nat.mod_le a w

theorem end_padding_lt (len w : Nat) (hw : w ≠ 0) :
    calculate_end_padding len w < w :=
  Nat.mod_lt _ (Nat.pos_of_ne_zero hw)

theorem end_padding_eq_zero_iff (len w : Nat) (hw : w ≠ 0) :
    calculate_end_padding len w = 0 ↔ len % w = 0 := by
  have hwpos : 0 < w := Nat.pos_of_ne_zero hw
  have hr : len % w < w := Nat.mod_lt _ hwpos
  unfold calculate_end_padding
  rcases Nat.eq_zero_or_pos (len % w) with h | h
  · simp [h]
  · rw [Nat.mod_eq_of_lt (by omega)]
    omega

theorem end_padding_of_mod_pos (len w : Nat) (hw : w ≠ 0) (h : len % w ≠ 0) :
    calculate_end_padding len w = w - len % w := by
  have hwpos : 0 < w := Nat.pos_of_ne_zero hw
  have hr : len % w < w := Nat.mod_lt _ hwpos
  unfold calculate_end_padding
  exact Nat.mod_eq_of_lt (by omega)

/-- If everything fits strictly inside one row, the single-row branch
condition of `Display::fmt` holds. -/
theorem single_cond_of_lt (bp L w : Nat) (hw : w ≠ 0) (hT : bp + L < w) :
    L + bp + calculate_end_padding (bp + L) w ≤ w := by
  rcases Nat.eq_zero_or_pos (bp + L) with h0 | h0
  · have hmod : (bp + L) % w = 0 := by simp [h0]
    have := (end_padding_eq_zero_iff (bp + L) w hw).2 hmod
    omega
  · have hmod : (bp + L) % w = bp + L := Nat.mod_eq_of_lt hT
    have := end_padding_of_mod_pos (bp + L) w hw (by omega)
    omega

/-- In the multi-row branch the padded length reaches at least one full row. -/
theorem multi_w_le (bp L w : Nat) (hw : w ≠ 0)
    (hmulti : ¬ (L + bp + calculate_end_padding (bp + L) w ≤ w)) :
    w ≤ bp + L := by
  by_contra h
  exact hmulti (single_cond_of_lt bp L w hw (by omega))

/-! ### The while loop -/

theorem midRows_pos (w : Nat) (hw : 0 < w) (a : Nat) (rest : List Nat)
    (h : w - 1 < rest.length) :
    midRows w hw a rest =
      (⟨a, rest.take w, Padding.default⟩ :: (midRows w hw (a + w) (rest.drop w)).1,
       (midRows w hw (a + w) (rest.drop w)).2) := by
  rw [midRows]
  simp [h]

theorem midRows_neg (w : Nat) (hw : 0 < w) (a : Nat) (rest : List Nat)
    (h : ¬ w - 1 < rest.length) :
    midRows w hw a rest = ([], a, rest) := by
  rw [midRows]
  simp [h]

theorem fmtMidRows_pos (cp : List Char) (w : Nat) (hw : 0 < w) (a : Nat)
    (sep : List Char) (rest : List Nat) (h : w - 1 < rest.length) :
    fmtMidRows cp w hw a sep rest =
      (sep ++ fmt_line a cp (rest.take w) Padding.default ++
        (fmtMidRows cp w hw (a + w) ['\n'] (rest.drop w)).1,
       (fmtMidRows cp w hw (a + w) ['\n'] (rest.drop w)).2) := by
  rw [fmtMidRows]
  simp [h]

theorem fmtMidRows_neg (cp : List Char) (w : Nat) (hw : 0 < w) (a : Nat)
    (sep : List Char) (rest : List Nat) (h : ¬ w - 1 < rest.length) :
    fmtMidRows cp w hw a sep rest = ([], a, sep, rest) := by
  rw [fmtMidRows]
  simp [h]

/-- Loop invariant when the guard fails: nothing is emitted. -/
theorem midRows_spec_stop (w : Nat) (hw : 0 < w) (a : Nat) (rest : List Nat)
    (h : ¬ w - 1 < rest.length) :
    ((midRows w hw a rest).1.map Row.bytes).flatten ++ (midRows w hw a rest).2.2 = rest ∧
    (midRows w hw a rest).1.length = rest.length / w ∧
    (midRows w hw a rest).2.2.length = rest.length % w ∧
    ∀ r ∈ (midRows w hw a rest).1, r.bytes.length = w ∧ r.padding = Padding.default := by
  rw [midRows_neg w hw a rest h]
  refine ⟨rfl, ?_, ?_, by simp⟩
  · show (0 : Nat) = rest.length / w
    exact (Nat.div_eq_of_lt (by omega)).symm
  · show rest.length = rest.length % w
    exact (Nat.mod_eq_of_lt (by omega)).symm

/-- Joint invariant of the while loop: the emitted rows tile the consumed
prefix, the loop emits `length / w` rows, leaves `length % w` bytes, and
every emitted row is a full unpadded row. -/
theorem midRows_spec (w : Nat) (hw : 0 < w) (a : Nat) (rest : List Nat) :
    ((midRows w hw a rest).1.map Row.bytes).flatten ++ (midRows w hw a rest).2.2 = rest ∧
    (midRows w hw a rest).1.length = rest.length / w ∧
    (midRows w hw a rest).2.2.length = rest.length % w ∧
    ∀ r ∈ (midRows w hw a rest).1, r.bytes.length = w ∧ r.padding = Padding.default := by
  suffices H : ∀ (n a : Nat) (rest : List Nat), rest.length ≤ n →
      ((midRows w hw a rest).1.map Row.bytes).flatten ++ (midRows w hw a rest).2.2 = rest ∧
      (midRows w hw a rest).1.length = rest.length / w ∧
      (midRows w hw a rest).2.2.length = rest.length % w ∧
      ∀ r ∈ (midRows w hw a rest).1, r.bytes.length = w ∧ r.padding = Padding.default by
    exact H rest.length a rest le_rfl
  intro n
  induction n with
  | zero =>
    intro a rest hn
    exact midRows_spec_stop w hw a rest (by omega)
  | succ n ih =>
    intro a rest hn
    by_cases h : w - 1 < rest.length
    · have hlen : w ≤ rest.length := by omega
      have hdrop : (rest.drop w).length ≤ n := by
        simp only [List.length_drop]
        omega
      obtain ⟨ih1, ih2, ih3, ih4⟩ := ih (a + w) (rest.drop w) hdrop
      rw [midRows_pos w hw a rest h]
      refine ⟨?_, ?_, ?_, ?_⟩
      · simp only [List.map_cons, List.flatten_cons, List.append_assoc, ih1]
        exact List.take_append_drop w rest
      · simp only [List.length_cons, ih2, List.length_drop]
        rw [Nat.div_eq_sub_div hw hlen]
      · simp only [ih3, List.length_drop]
        exact (Nat.mod_eq_sub_mod hlen).symm
      · intro r hr
        rcases List.mem_cons.1 hr with rfl | hr
        · exact ⟨by simp [List.length_take]; omega, rfl⟩
        · exact ih4 r hr
    · exact midRows_spec_stop w hw a rest h

/-! ### joinLines algebra -/

theorem joinLines_cons_of_ne (x : List Char) (ls : List (List Char)) (h : ls ≠ []) :
    joinLines (x :: ls) = x ++ '\n' :: joinLines ls := by
  cases ls with
  | nil => exact absurd rfl h
  | cons z zs => rfl

theorem joinLines_cons (x : List Char) (ls : List (List Char)) :
    joinLines (x :: ls) = x ++ sepJoin ['\n'] ls := by
  cases ls with
  | nil => simp [joinLines, sepJoin]
  | cons y ys =>
    rw [joinLines_cons_of_ne x (y :: ys) (by simp), sepJoin]
    simp

theorem sepJoin_cons (sep x : List Char) (ls : List (List Char)) :
    sepJoin sep (x :: ls) = sep ++ x ++ sepJoin ['\n'] ls := by
  rw [sepJoin, if_neg (by simp), joinLines_cons, List.append_assoc]

theorem joinLines_append_singleton (ls : List (List Char)) (y : List Char) (h : ls ≠ []) :
    joinLines (ls ++ [y]) = joinLines ls ++ '\n' :: y := by
  induction ls with
  | nil => exact absurd rfl h
  | cons x xs ih =>
    rw [List.cons_append, joinLines_cons_of_ne x (xs ++ [y]) (by simp)]
    cases xs with
    | nil => simp [joinLines]
    | cons z zs =>
      rw [ih (by simp), joinLines_cons_of_ne x (z :: zs) (by simp)]
      simp

/-- The textual while loop writes exactly the rendered rows of `midRows`,
joined by newlines and preceded by the incoming separator. -/
theorem fmtMidRows_eq (cp : List Char) (w : Nat) (hw : 0 < w) (a : Nat)
    (sep : List Char) (rest : List Nat) :
    fmtMidRows cp w hw a sep rest =
      (sepJoin sep ((midRows w hw a rest).1.map (renderRow cp)),
       (midRows w hw a rest).2.1,
       (if (midRows w hw a rest).1.isEmpty then sep else ['\n']),
       (midRows w hw a rest).2.2) := by
  suffices H : ∀ (n a : Nat) (sep : List Char) (rest : List Nat), rest.length ≤ n →
      fmtMidRows cp w hw a sep rest =
        (sepJoin sep ((midRows w hw a rest).1.map (renderRow cp)),
         (midRows w hw a rest).2.1,
         (if (midRows w hw a rest).1.isEmpty then sep else ['\n']),
         (midRows w hw a rest).2.2) by
    exact H rest.length a sep rest le_rfl
  intro n
  induction n with
  | zero =>
    intro a sep rest hn
    have h : ¬ w - 1 < rest.length := by omega
    rw [fmtMidRows_neg cp w hw a sep rest h, midRows_neg w hw a rest h]
    simp [sepJoin]
  | succ n ih =>
    intro a sep rest hn
    by_cases h : w - 1 < rest.length
    · have hdrop : (rest.drop w).length ≤ n := by
        simp only [List.length_drop]
        omega
      rw [fmtMidRows_pos cp w hw a sep rest h, midRows_pos w hw a rest h,
        ih (a + w) ['\n'] (rest.drop w) hdrop]
      refine Prod.ext ?_ (Prod.ext rfl (Prod.ext ?_ rfl))
      · rw [List.map_cons, sepJoin_cons]
        simp [renderRow, List.append_assoc]
      · simp only [ite_self, List.isEmpty_cons, Bool.false_eq_true, if_false]
    · rw [fmtMidRows_neg cp w hw a sep rest h, midRows_neg w hw a rest h]
      simp [sepJoin]

theorem sepJoin_nil_sep (ls : List (List Char)) : sepJoin [] ls = joinLines ls := by
  cases ls with
  | nil => simp [sepJoin, joinLines]
  | cons x xs => simp [sepJoin]

theorem sepJoin_snoc (sep : List Char) (ls : List (List Char)) (y : List Char) :
    sepJoin sep ls ++ ((if ls.isEmpty then sep else ['\n']) ++ y) = sepJoin sep (ls ++ [y]) := by
  cases ls with
  | nil => simp [sepJoin, joinLines]
  | cons x xs =>
    have hj : joinLines (x :: (xs ++ [y])) = joinLines (x :: xs) ++ '\n' :: y := by
      rw [← List.cons_append]
      exact joinLines_append_singleton (x :: xs) y (by simp)
    simp only [sepJoin, List.cons_append, List.isEmpty_cons, Bool.false_eq_true, if_false, hj]
    simp [List.append_assoc]

theorem sepJoin_newline_snoc (ls : List (List Char)) (y : List Char) :
    sepJoin ['\n'] ls ++ '\n' :: y = sepJoin ['\n'] (ls ++ [y]) := by
  have h := sepJoin_snoc ['\n'] ls y
  simpa using h

theorem map_preserves_isEmpty {α β : Type} (f : α → β) (l : List α) :
    (l.map f).isEmpty = l.isEmpty := by
  cases l <;> rfl

/-! ### Branch shape of `HexView.rows` and the `fmt`/`rows` correspondence -/

theorem rows_single (ao : Nat) (cp : List Char) (data : List Nat) (w : Nat) (hw : w ≠ 0)
    (hfit : data.length + calculate_begin_padding ao w +
      calculate_end_padding (calculate_begin_padding ao w + data.length) w ≤ w) :
    HexView.rows ⟨ao, cp, data, w⟩ =
      [⟨ao - calculate_begin_padding ao w, data,
        Padding.new (calculate_begin_padding ao w)
          (calculate_end_padding (calculate_begin_padding ao w + data.length) w)⟩] := by
  simp only [HexView.rows]
  rw [dif_neg hw]
  dsimp only
  rw [if_pos hfit]

theorem rows_multi (ao : Nat) (cp : List Char) (data : List Nat) (w : Nat) (hw : w ≠ 0)
    (hmulti : ¬ (data.length + calculate_begin_padding ao w +
      calculate_end_padding (calculate_begin_padding ao w + data.length) w ≤ w)) :
    HexView.rows ⟨ao, cp, data, w⟩ =
      (if calculate_begin_padding ao w ≠ 0 then
        [⟨ao - calculate_begin_padding ao w, data.take (w - calculate_begin_padding ao w),
          Padding.from_left (calculate_begin_padding ao w)⟩]
      else []) ++
      (midRows w (Nat.pos_of_ne_zero hw)
        (if calculate_begin_padding ao w ≠ 0 then
          ao - calculate_begin_padding ao w + w else ao - calculate_begin_padding ao w)
        (data.drop (if calculate_begin_padding ao w ≠ 0 then
          w - calculate_begin_padding ao w else 0))).1 ++
      (if calculate_end_padding (calculate_begin_padding ao w + data.length) w ≠ 0 then
        [⟨(midRows w (Nat.pos_of_ne_zero hw)
            (if calculate_begin_padding ao w ≠ 0 then
              ao - calculate_begin_padding ao w + w else ao - calculate_begin_padding ao w)
            (data.drop (if calculate_begin_padding ao w ≠ 0 then
              w - calculate_begin_padding ao w else 0))).2.1,
          (midRows w (Nat.pos_of_ne_zero hw)
            (if calculate_begin_padding ao w ≠ 0 then
              ao - calculate_begin_padding ao w + w else ao - calculate_begin_padding ao w)
            (data.drop (if calculate_begin_padding ao w ≠ 0 then
              w - calculate_begin_padding ao w else 0))).2.2,
          Padding.from_right
            (calculate_end_padding (calculate_begin_padding ao w + data.length) w)⟩]
      else []) := by
  simp only [HexView.rows]
  rw [dif_neg hw]
  dsimp only
  rw [if_neg hmulti]

/-- The characters `Display::fmt` writes are exactly the rendered rows of
`HexView.rows`, joined by single newlines, and the render succeeds. -/
theorem fmt_eq (v : HexView) (hw : v.row_width ≠ 0) :
    v.fmt = (joinLines ((v.rows).map (renderRow v.codepage)), Except.ok ()) := by
  obtain ⟨ao, cp, data, w⟩ := v
  by_cases hfit : data.length + calculate_begin_padding ao w +
      calculate_end_padding (calculate_begin_padding ao w + data.length) w ≤ w
  · rw [rows_single ao cp data w hw hfit]
    simp only [HexView.fmt]
    rw [dif_neg hw]
    dsimp only
    rw [if_pos hfit]
    simp [joinLines, renderRow]
  · rw [rows_multi ao cp data w hw hfit]
    simp only [HexView.fmt]
    rw [dif_neg hw]
    dsimp only
    rw [if_neg hfit]
    rw [fmtMidRows_eq]
    set bp := calculate_begin_padding ao w with hbp
    set ep := calculate_end_padding (bp + data.length) w with hep
    set mid := midRows w (Nat.pos_of_ne_zero hw) (if bp ≠ 0 then ao - bp + w else ao - bp)
      (data.drop (if bp ≠ 0 then w - bp else 0)) with hmid
    refine Prod.ext ?_ rfl
    dsimp only
    by_cases hbp0 : bp ≠ 0
    · by_cases hep0 : ep ≠ 0
      · simp only [if_pos hbp0, if_pos hep0, ite_self]
        rw [List.append_assoc, List.singleton_append, sepJoin_newline_snoc]
        rw [List.map_append, List.map_append, List.map_cons, List.map_nil,
          List.append_assoc, List.singleton_append, joinLines_cons]
        simp [renderRow]
      · simp only [if_pos hbp0, if_neg hep0, List.append_nil]
        rw [List.map_append, List.map_cons, List.map_nil, List.singleton_append, joinLines_cons]
        simp [renderRow]
    · by_cases hep0 : ep ≠ 0
      · simp only [if_neg hbp0, if_pos hep0, List.nil_append]
        rw [← map_preserves_isEmpty (renderRow cp) mid.1, sepJoin_snoc, sepJoin_nil_sep]
        simp [renderRow]
      · simp only [if_neg hbp0, if_neg hep0, List.append_nil, List.nil_append,
          sepJoin_nil_sep]

/-! ### The emitted row count -/

theorem ceil_div_spec (T w : Nat) (hw : 0 < w) :
    (T + w - 1) / w = if T % w = 0 then T / w else T / w + 1 := by
  obtain ⟨q, r, hr, hT⟩ : ∃ q r, r < w ∧ T = w * q + r :=
    ⟨T / w, T % w, Nat.mod_lt _ hw, (Nat.div_add_mod T w).symm⟩
  subst hT
  rw [Nat.mul_add_mod, Nat.mul_add_div hw, Nat.div_eq_of_lt hr, Nat.mod_eq_of_lt hr]
  by_cases h : r = 0
  · subst h
    rw [if_pos rfl]
    have harith : w * q + 0 + w - 1 = (w - 1) + w * q := by omega
    rw [harith, Nat.add_mul_div_left _ _ hw, Nat.div_eq_of_lt (by omega)]
    omega
  · rw [if_neg h]
    have harith : w * q + r + w - 1 = (r - 1) + w * (q + 1) := by
      rw [Nat.mul_add, Nat.mul_one]
      omega
    rw [harith, Nat.add_mul_div_left _ _ hw, Nat.div_eq_of_lt (by omega)]
    omega

theorem rows_length (v : HexView) (hw : v.row_width ≠ 0) :
    (v.rows).length = max 1 ((calculate_begin_padding v.address_offset v.row_width +
      v.data.length + v.row_width - 1) / v.row_width) := by
  obtain ⟨ao, cp, data, w⟩ := v
  have hw' : 0 < w := Nat.pos_of_ne_zero hw
  have hbplt : calculate_begin_padding ao w < w := begin_padding_lt ao w hw
  show (HexView.rows ⟨ao, cp, data, w⟩).length =
    max 1 ((calculate_begin_padding ao w + data.length + w - 1) / w)
  rw [ceil_div_spec _ w hw']
  by_cases hfit : data.length + calculate_begin_padding ao w +
      calculate_end_padding (calculate_begin_padding ao w + data.length) w ≤ w
  · rw [rows_single ao cp data w hw hfit]
    have hTw : calculate_begin_padding ao w + data.length ≤ w := by omega
    by_cases hmod : (calculate_begin_padding ao w + data.length) % w = 0
    · rw [if_pos hmod]
      rcases Nat.lt_or_ge (calculate_begin_padding ao w + data.length) w with hlt | hge
      · have h0 : calculate_begin_padding ao w + data.length = 0 := by
          have := Nat.mod_eq_of_lt hlt
          omega
        rw [h0]
        simp
      · have hTeq : calculate_begin_padding ao w + data.length = w := le_antisymm hTw hge
        rw [hTeq, Nat.div_self hw']
        simp
    · rw [if_neg hmod]
      have hTlt : calculate_begin_padding ao w + data.length < w := by
        rcases Nat.lt_or_ge (calculate_begin_padding ao w + data.length) w with hlt | hge
        · exact hlt
        · have hTeq : calculate_begin_padding ao w + data.length = w := le_antisymm hTw hge
          rw [hTeq] at hmod
          simp [Nat.mod_self] at hmod
      rw [Nat.div_eq_of_lt hTlt]
      simp
  · have hwle : w ≤ calculate_begin_padding ao w + data.length := multi_w_le _ _ _ hw hfit
    rw [rows_multi ao cp data w hw hfit]
    obtain ⟨-, hcount, -, -⟩ := midRows_spec w (Nat.pos_of_ne_zero hw)
      (if calculate_begin_padding ao w ≠ 0 then ao - calculate_begin_padding ao w + w
        else ao - calculate_begin_padding ao w)
      (data.drop (if calculate_begin_padding ao w ≠ 0 then
        w - calculate_begin_padding ao w else 0))
    by_cases hbp0 : calculate_begin_padding ao w ≠ 0
    · simp only [if_pos hbp0] at hcount ⊢
      have hwbp : w - calculate_begin_padding ao w ≤ data.length := by omega
      rw [List.length_append, List.length_append, hcount]
      simp only [List.length_drop, List.length_cons, List.length_nil]
      have hdl : data.length - (w - calculate_begin_padding ao w) =
          calculate_begin_padding ao w + data.length - w := by omega
      rw [hdl]
      have hceil := Nat.div_eq_sub_div hw' hwle
      by_cases hmod : (calculate_begin_padding ao w + data.length) % w = 0
      · have hep : calculate_end_padding (calculate_begin_padding ao w + data.length) w = 0 :=
          (end_padding_eq_zero_iff _ _ hw).2 hmod
        rw [if_pos hmod, if_neg (by simp [hep])]
        simp only [List.length_nil]
        generalize hq1 : (calculate_begin_padding ao w + data.length - w) / w = q1 at hceil ⊢
        generalize hq2 : (calculate_begin_padding ao w + data.length) / w = q2 at hceil ⊢
        omega
      · have hep : calculate_end_padding (calculate_begin_padding ao w + data.length) w ≠ 0 :=
          fun h => hmod ((end_padding_eq_zero_iff _ _ hw).1 h)
        rw [if_neg hmod, if_pos hep]
        simp only [List.length_cons, List.length_nil]
        generalize hq1 : (calculate_begin_padding ao w + data.length - w) / w = q1 at hceil ⊢
        generalize hq2 : (calculate_begin_padding ao w + data.length) / w = q2 at hceil ⊢
        omega
    · have hbz : calculate_begin_padding ao w = 0 := not_not.1 hbp0
      simp only [if_neg hbp0] at hcount ⊢
      simp only [List.drop_zero] at hcount ⊢
      rw [List.length_append, List.length_append, hcount]
      simp only [List.length_nil, hbz, Nat.zero_add]
      have hwleL : w ≤ data.length := by omega
      have hone : 1 ≤ data.length / w := (Nat.one_le_div_iff hw').2 hwleL
      by_cases hmod : data.length % w = 0
      · have hep : calculate_end_padding data.length w = 0 :=
          (end_padding_eq_zero_iff _ _ hw).2 hmod
        rw [if_pos hmod, if_neg (by simp [hep])]
        simp only [List.length_nil]
        omega
      · have hep : calculate_end_padding data.length w ≠ 0 :=
          fun h => hmod ((end_padding_eq_zero_iff _ _ hw).1 h)
        rw [if_neg hmod, if_pos hep]
        simp only [List.length_cons, List.length_nil]
        omega

/-- A successful render always emits at least one row. -/
theorem rows_ne_nil (v : HexView) (hw : v.row_width ≠ 0) : v.rows ≠ [] := by
  intro h
  have hlen := rows_length v hw
  rw [h] at hlen
  simp only [List.length_nil] at hlen
  omega

/-- The real bytes of the emitted rows, in order, are exactly the input
data: no byte is skipped, duplicated, or read out of bounds. -/
theorem rows_flatten (v : HexView) (hw : v.row_width ≠ 0) :
    ((v.rows).map Row.bytes).flatten = v.data := by
  obtain ⟨ao, cp, data, w⟩ := v
  have hw' : 0 < w := Nat.pos_of_ne_zero hw
  have hbplt : calculate_begin_padding ao w < w := begin_padding_lt ao w hw
  show ((HexView.rows ⟨ao, cp, data, w⟩).map Row.bytes).flatten = data
  by_cases hfit : data.length + calculate_begin_padding ao w +
      calculate_end_padding (calculate_begin_padding ao w + data.length) w ≤ w
  · rw [rows_single ao cp data w hw hfit]
    simp
  · rw [rows_multi ao cp data w hw hfit]
    have hwle : w ≤ calculate_begin_padding ao w + data.length := multi_w_le _ _ _ hw hfit
    obtain ⟨hjoin, -, hrest, -⟩ := midRows_spec w (Nat.pos_of_ne_zero hw)
      (if calculate_begin_padding ao w ≠ 0 then ao - calculate_begin_padding ao w + w
        else ao - calculate_begin_padding ao w)
      (data.drop (if calculate_begin_padding ao w ≠ 0 then
        w - calculate_begin_padding ao w else 0))
    by_cases hbp0 : calculate_begin_padding ao w ≠ 0
    · simp only [if_pos hbp0] at hjoin hrest ⊢
      have hwbp : w - calculate_begin_padding ao w ≤ data.length := by omega
      by_cases hep : calculate_end_padding (calculate_begin_padding ao w + data.length) w ≠ 0
      · rw [if_pos hep]
        simp only [List.map_append, List.flatten_append, List.map_cons, List.map_nil,
          List.flatten_cons, List.flatten_nil, List.append_nil]
        rw [List.append_assoc, hjoin]
        exact List.take_append_drop _ data
      · rw [if_neg hep]
        have hmod : (calculate_begin_padding ao w + data.length) % w = 0 :=
          (end_padding_eq_zero_iff _ _ hw).1 (not_not.1 hep)
        have hr0 : (midRows w (Nat.pos_of_ne_zero hw)
            (ao - calculate_begin_padding ao w + w)
            (data.drop (w - calculate_begin_padding ao w))).2.2.length = 0 := by
          rw [hrest]
          simp only [List.length_drop]
          have h1 : data.length - (w - calculate_begin_padding ao w) =
              calculate_begin_padding ao w + data.length - w := by omega
          rw [h1, ← Nat.mod_eq_sub_mod hwle, hmod]
        have hrnil := List.eq_nil_of_length_eq_zero hr0
        rw [hrnil, List.append_nil] at hjoin
        simp only [List.map_append, List.flatten_append, List.map_cons, List.map_nil,
          List.flatten_cons, List.flatten_nil, List.append_nil]
        rw [hjoin]
        exact List.take_append_drop _ data
    · have hbz : calculate_begin_padding ao w = 0 := not_not.1 hbp0
      simp only [if_neg hbp0, List.drop_zero] at hjoin hrest ⊢
      by_cases hep : calculate_end_padding (calculate_begin_padding ao w + data.length) w ≠ 0
      · rw [if_pos hep]
        simp only [List.map_append, List.flatten_append, List.map_cons, List.map_nil,
          List.flatten_cons, List.flatten_nil, List.append_nil, List.nil_append]
        exact hjoin
      · rw [if_neg hep]
        have hmod : (calculate_begin_padding ao w + data.length) % w = 0 :=
          (end_padding_eq_zero_iff _ _ hw).1 (not_not.1 hep)
        have hr0 : (midRows w (Nat.pos_of_ne_zero hw)
            (ao - calculate_begin_padding ao w) data).2.2.length = 0 := by
          rw [hrest]
          rw [show data.length = calculate_begin_padding ao w + data.length by omega, hmod]
        have hrnil := List.eq_nil_of_length_eq_zero hr0
        rw [hrnil, List.append_nil] at hjoin
        simp only [List.map_append, List.flatten_append, List.map_cons, List.map_nil,
          List.flatten_cons, List.flatten_nil, List.append_nil, List.nil_append]
        exact hjoin

/-- Every emitted row of a render with a nonzero padded length spans exactly
`row_width` byte-column slots. -/
theorem rows_slots (v : HexView) (hw : v.row_width ≠ 0)
    (hT : calculate_begin_padding v.address_offset v.row_width + v.data.length ≠ 0) :
    ∀ r ∈ v.rows, rowSlots r = v.row_width := by
  obtain ⟨ao, cp, data, w⟩ := v
  have hw' : 0 < w := Nat.pos_of_ne_zero hw
  have hbplt : calculate_begin_padding ao w < w := begin_padding_lt ao w hw
  simp only at hT
  intro r hr
  by_cases hfit : data.length + calculate_begin_padding ao w +
      calculate_end_padding (calculate_begin_padding ao w + data.length) w ≤ w
  · rw [rows_single ao cp data w hw hfit] at hr
    simp only [List.mem_singleton] at hr
    subst hr
    simp only [rowSlots, Padding.new]
    by_cases hmod : (calculate_begin_padding ao w + data.length) % w = 0
    · have hep := (end_padding_eq_zero_iff
        (calculate_begin_padding ao w + data.length) w hw).2 hmod
      have hdvd : w ∣ (calculate_begin_padding ao w + data.length) :=
        Nat.dvd_of_mod_eq_zero hmod
      have hge : w ≤ calculate_begin_padding ao w + data.length :=
        Nat.le_of_dvd (Nat.pos_of_ne_zero hT) hdvd
      omega
    · have hep := end_padding_of_mod_pos
        (calculate_begin_padding ao w + data.length) w hw hmod
      have hml : (calculate_begin_padding ao w + data.length) % w ≤
          calculate_begin_padding ao w + data.length := Nat.mod_le _ _
      have hmlt : (calculate_begin_padding ao w + data.length) % w < w := Nat.mod_lt _ hw'
      rw [hep] at hfit ⊢
      generalize hM : (calculate_begin_padding ao w + data.length) % w = M at hml hmlt hfit ⊢
      omega
  · rw [rows_multi ao cp data w hw hfit] at hr
    have hwle : w ≤ calculate_begin_padding ao w + data.length := multi_w_le _ _ _ hw hfit
    obtain ⟨-, -, hrest, hmids⟩ := midRows_spec w (Nat.pos_of_ne_zero hw)
      (if calculate_begin_padding ao w ≠ 0 then ao - calculate_begin_padding ao w + w
        else ao - calculate_begin_padding ao w)
      (data.drop (if calculate_begin_padding ao w ≠ 0 then
        w - calculate_begin_padding ao w else 0))
    simp only [List.mem_append] at hr
    rcases hr with (hr | hr) | hr
    · by_cases hbp0 : calculate_begin_padding ao w ≠ 0
      · simp only [if_pos hbp0, List.mem_singleton] at hr
        subst hr
        have hwbp : w - calculate_begin_padding ao w ≤ data.length := by omega
        simp only [rowSlots, Padding.from_left, List.length_take]
        omega
      · simp only [if_neg hbp0] at hr
        exact absurd hr (List.not_mem_nil r)
    · obtain ⟨hlen, hpad⟩ := hmids r hr
      simp [rowSlots, hlen, hpad, Padding.default]
    · by_cases hep0 : calculate_end_padding
          (calculate_begin_padding ao w + data.length) w ≠ 0
      · simp only [if_pos hep0, List.mem_singleton] at hr
        subst hr
        have hmod : (calculate_begin_padding ao w + data.length) % w ≠ 0 :=
          fun h => hep0 ((end_padding_eq_zero_iff _ _ hw).2 h)
        have hepv := end_padding_of_mod_pos
          (calculate_begin_padding ao w + data.length) w hw hmod
        have hrlen : (midRows w (Nat.pos_of_ne_zero hw)
            (if calculate_begin_padding ao w ≠ 0 then
              ao - calculate_begin_padding ao w + w else ao - calculate_begin_padding ao w)
            (data.drop (if calculate_begin_padding ao w ≠ 0 then
              w - calculate_begin_padding ao w else 0))).2.2.length =
            (calculate_begin_padding ao w + data.length) % w := by
          by_cases hbp0 : calculate_begin_padding ao w ≠ 0
          · simp only [if_pos hbp0] at hrest ⊢
            rw [hrest]
            simp only [List.length_drop]
            have h1 : data.length - (w - calculate_begin_padding ao w) =
                calculate_begin_padding ao w + data.length - w := by omega
            rw [h1, ← Nat.mod_eq_sub_mod hwle]
          · have hbz : calculate_begin_padding ao w = 0 := not_not.1 hbp0
            simp only [if_neg hbp0, List.drop_zero] at hrest ⊢
            rw [hrest, hbz, Nat.zero_add]
        have hmlt : (calculate_begin_padding ao w + data.length) % w < w := Nat.mod_lt _ hw'
        simp only [rowSlots, Padding.from_right]
        rw [hrlen, hepv]
        generalize hM : (calculate_begin_padding ao w + data.length) % w = M at hmlt ⊢
        omega
      · simp only [if_neg hep0] at hr
        exact absurd hr (List.not_mem_nil r)

/-! ### Fixed column widths of the rendered text -/

theorem hexDigitsAux_zero_eq (fuel : Nat) : hexDigitsAux fuel 0 = [] := by
  cases fuel <;> rfl

theorem hexDigitsAux_length_le_one (fuel m : Nat) (h : m < 16) :
    (hexDigitsAux fuel m).length ≤ 1 := by
  cases fuel with
  | zero => simp [hexDigitsAux]
  | succ fuel =>
    cases m with
    | zero => simp [hexDigitsAux]
    | succ k =>
      rw [hexDigitsAux, Nat.div_eq_of_lt h, hexDigitsAux_zero_eq]
      · simp
      · omega

theorem hexDigitsAux_length_le_two (fuel n : Nat) (h : n < 256) :
    (hexDigitsAux fuel n).length ≤ 2 := by
  cases fuel with
  | zero => simp [hexDigitsAux]
  | succ fuel =>
    cases n with
    | zero => simp [hexDigitsAux]
    | succ k =>
      rw [hexDigitsAux]
      · simp only [List.length_append, List.length_cons, List.length_nil]
        have hdiv : (k + 1) / 16 < 16 :=
          (Nat.div_lt_iff_lt_mul (by norm_num)).2 (by omega)
        have := hexDigitsAux_length_le_one fuel ((k + 1) / 16) hdiv
        omega
      · omega

theorem hexDigits_length_le_two (b : Nat) (h : b < 256) : (hexDigits b).length ≤ 2 := by
  unfold hexDigits
  split
  · simp
  · exact hexDigitsAux_length_le_two b b h

theorem hexDigits_length_pos (b : Nat) : 1 ≤ (hexDigits b).length := by
  unfold hexDigits
  split
  next => simp
  next hb =>
    cases b with
    | zero => exact absurd rfl hb
    | succ k =>
      rw [hexDigitsAux]
      · simp
      · exact hb

theorem toPaddedHex_length (width n : Nat) :
    (toPaddedHex width n).length = max width (hexDigits n).length := by
  unfold toPaddedHex
  simp only [List.length_append, List.length_replicate]
  omega

theorem hexByte_length (b : Nat) (h : b < 256) : (hexByte b).length = 2 := by
  have h2 := hexDigits_length_le_two b h
  have h1 := hexDigits_length_pos b
  unfold hexByte
  rw [toPaddedHex_length]
  omega

theorem fmt_bytes_as_char_length (cp : List Char) (bytes : List Nat) (p : Padding) :
    (fmt_bytes_as_char cp bytes p).length = p.left + bytes.length + p.right := by
  simp [fmt_bytes_as_char]
  omega

theorem writeCells_length (sep : List Char) (cells : List (List Char))
    (h : ∀ c ∈ cells, c.length = 2) :
    (writeCells sep cells).length =
      if cells.isEmpty then 0 else sep.length + 3 * cells.length - 1 := by
  induction cells generalizing sep with
  | nil => rfl
  | cons c cs ih =>
    have hc : c.length = 2 := h c (by simp)
    have ihs := ih [' '] (fun x hx => h x (List.mem_cons.2 (Or.inr hx)))
    rw [writeCells]
    simp only [List.isEmpty_cons, Bool.false_eq_true, if_false, List.length_append, hc]
    cases cs with
    | nil =>
      simp only [writeCells, List.length_nil, List.length_cons]
      omega
    | cons d ds =>
      simp only [List.isEmpty_cons, Bool.false_eq_true, if_false, List.length_cons,
        List.length_nil] at ihs
      rw [ihs]
      simp only [List.length_cons]
      omega

theorem fmt_bytes_as_hex_length (bytes : List Nat) (p : Padding)
    (hb : ∀ b ∈ bytes, b < 256) :
    (fmt_bytes_as_hex bytes p).length =
      if p.left + bytes.length + p.right = 0 then 0
      else 3 * (p.left + bytes.length + p.right) - 1 := by
  have hiff : ∀ {α : Type} (l : List α), l.isEmpty = true ↔ l.length = 0 := by
    intro α l
    cases l <;> simp
  unfold fmt_bytes_as_hex
  rw [writeCells_length]
  · have hlen : (List.replicate p.left [' ', ' '] ++ bytes.map hexByte ++
        List.replicate p.right [' ', ' ']).length = p.left + bytes.length + p.right := by
      simp [List.length_append, List.length_replicate, List.length_map]
      omega
    by_cases h0 : p.left + bytes.length + p.right = 0
    · rw [if_pos ((hiff _).2 (by rw [hlen]; exact h0)), if_pos h0]
    · rw [if_neg (by rw [hiff _, hlen]; exact h0), if_neg h0, hlen]
      simp
  · intro c hc
    rcases List.mem_append.1 hc with h1 | h2
    · rcases List.mem_append.1 h1 with hrep | hmap
      · rw [List.eq_of_mem_replicate hrep]
        rfl
      · obtain ⟨b, hbm, rfl⟩ := List.mem_map.1 hmap
        exact hexByte_length b (hb b hbm)
    · rw [List.eq_of_mem_replicate h2]
      rfl

/-! ### Newline discipline of the rendered text -/

theorem hexDigit_lt16_ne_newline : ∀ m < 16, hexDigit m ≠ '\n' := by decide

theorem mem_hexDigitsAux_ne_newline (fuel : Nat) :
    ∀ (n : Nat) (c : Char), c ∈ hexDigitsAux fuel n → c ≠ '\n' := by
  induction fuel with
  | zero =>
    intro n c hc
    simp [hexDigitsAux] at hc
  | succ fuel ih =>
    intro n c hc
    cases n with
    | zero => simp [hexDigitsAux] at hc
    | succ k =>
      rw [hexDigitsAux] at hc
      · rcases List.mem_append.1 hc with h1 | h2
        · exact ih _ c h1
        · simp only [List.mem_singleton] at h2
          subst h2
          exact hexDigit_lt16_ne_newline _ (Nat.mod_lt _ (by norm_num))
      · omega

theorem mem_toPaddedHex_ne_newline (width n : Nat) (c : Char)
    (hc : c ∈ toPaddedHex width n) : c ≠ '\n' := by
  unfold toPaddedHex at hc
  rcases List.mem_append.1 hc with h1 | h2
  · rw [List.eq_of_mem_replicate h1]
    decide
  · unfold hexDigits at h2
    split at h2
    · simp only [List.mem_singleton] at h2
      subst h2
      decide
    · exact mem_hexDigitsAux_ne_newline n n c h2

theorem mem_writeCells (cells : List (List Char)) :
    ∀ (sep : List Char) (c : Char), c ∈ writeCells sep cells →
      c ∈ sep ∨ c = ' ' ∨ ∃ cell, cell ∈ cells ∧ c ∈ cell := by
  induction cells with
  | nil =>
    intro sep c hc
    simp [writeCells] at hc
  | cons x xs ih =>
    intro sep c hc
    rw [writeCells] at hc
    rcases List.mem_append.1 hc with h1 | h2
    · rcases List.mem_append.1 h1 with hs | hx
      · exact Or.inl hs
      · exact Or.inr (Or.inr ⟨x, List.mem_cons_self x xs, hx⟩)
    · rcases ih [' '] c h2 with hs | hsp | ⟨cell, hcell, hmem⟩
      · simp only [List.mem_singleton] at hs
        exact Or.inr (Or.inl hs)
      · exact Or.inr (Or.inl hsp)
      · exact Or.inr (Or.inr ⟨cell, List.mem_cons.2 (Or.inr hcell), hmem⟩)

theorem mem_fmt_bytes_as_hex_ne_newline (bytes : List Nat) (p : Padding) (c : Char)
    (hc : c ∈ fmt_bytes_as_hex bytes p) : c ≠ '\n' := by
  unfold fmt_bytes_as_hex at hc
  rcases mem_writeCells _ _ _ hc with hs | hsp | ⟨cell, hcell, hmem⟩
  · simp at hs
  · subst hsp
    decide
  · rcases List.mem_append.1 hcell with h1 | h2
    · rcases List.mem_append.1 h1 with hrep | hmap
      · rw [List.eq_of_mem_replicate hrep] at hmem
        simp only [List.mem_cons, List.mem_singleton, List.not_mem_nil, or_false] at hmem
        rcases hmem with rfl | rfl <;> decide
      · obtain ⟨b, hbm, rfl⟩ := List.mem_map.1 hmap
        exact mem_toPaddedHex_ne_newline 2 b c hmem
    · rw [List.eq_of_mem_replicate h2] at hmem
      simp only [List.mem_cons, List.mem_singleton, List.not_mem_nil, or_false] at hmem
      rcases hmem with rfl | rfl <;> decide

theorem as_char_mem_or (b : Nat) (cp : List Char) :
    byte_mapping.as_char b cp ∈ cp ∨ byte_mapping.as_char b cp = '.' := by
  unfold byte_mapping.as_char
  rw [List.getD_eq_getElem?_getD]
  rcases h : cp[b]? with _ | x
  · simp
  · simp only [Option.getD_some]
    exact Or.inl (List.getElem?_mem h)

theorem mem_fmt_bytes_as_char_ne_newline (cp : List Char) (bytes : List Nat) (p : Padding)
    (hcp : ∀ c ∈ cp, c ≠ '\n') (c : Char)
    (hc : c ∈ fmt_bytes_as_char cp bytes p) : c ≠ '\n' := by
  unfold fmt_bytes_as_char at hc
  rcases List.mem_append.1 hc with h1 | h2
  · rcases List.mem_append.1 h1 with hrep | hmap
    · rw [List.eq_of_mem_replicate hrep]
      decide
    · obtain ⟨b, hbm, rfl⟩ := List.mem_map.1 hmap
      rcases as_char_mem_or b cp with hm | hdot
      · exact hcp _ hm
      · rw [hdot]
        decide
  · rw [List.eq_of_mem_replicate h2]
    decide

/-- No character of a rendered line is a newline (under the mapper contract
that the codepage supplies display characters, not a newline). -/
theorem mem_fmt_line_ne_newline (a : Nat) (cp : List Char) (bytes : List Nat) (p : Padding)
    (hcp : ∀ c ∈ cp, c ≠ '\n') (c : Char)
    (hc : c ∈ fmt_line a cp bytes p) : c ≠ '\n' := by
  unfold fmt_line at hc
  simp only [List.append_assoc, List.mem_append] at hc
  rcases hc with h | h | h | h | h | h | h
  · exact mem_toPaddedHex_ne_newline 8 a c h
  · simp only [List.mem_cons, List.mem_singleton, List.not_mem_nil, or_false] at h
    rcases h with rfl | rfl <;> decide
  · exact mem_fmt_bytes_as_hex_ne_newline bytes p c h
  · simp only [List.mem_cons, List.mem_singleton, List.not_mem_nil, or_false] at h
    rcases h with rfl | rfl <;> decide
  · simp only [List.mem_cons, List.mem_singleton, List.not_mem_nil, or_false] at h
    rcases h with rfl | rfl <;> decide
  · exact mem_fmt_bytes_as_char_ne_newline cp bytes p hcp c h
  · simp only [List.mem_cons, List.mem_singleton, List.not_mem_nil, or_false] at h
    rcases h with rfl | rfl <;> decide

/-- Every rendered line ends with the closing pipe of the character column. -/
theorem fmt_line_getLast (a : Nat) (cp : List Char) (bytes : List Nat) (p : Padding) :
    (fmt_line a cp bytes p).getLast? = some '|' := by
  unfold fmt_line
  rw [List.getLast?_append_of_ne_nil _ (by simp)]
  rfl

theorem joinLines_count_newline (ls : List (List Char))
    (h : ∀ l ∈ ls, '\n' ∉ l) :
    (joinLines ls).count '\n' = ls.length - 1 := by
  induction ls with
  | nil => simp [joinLines]
  | cons x xs ih =>
    cases xs with
    | nil =>
      simp only [joinLines, List.length_cons, List.length_nil]
      exact List.count_eq_zero.2 (h x (by simp))
    | cons y ys =>
      rw [joinLines_cons_of_ne x (y :: ys) (by simp)]
      rw [List.count_append, List.count_cons_self]
      have hx : x.count '\n' = 0 :=
        List.count_eq_zero.2 (h x (by simp))
      have hys := ih (fun l hl => h l (List.mem_cons.2 (Or.inr hl)))
      simp only [List.length_cons] at hys ⊢
      omega

theorem joinLines_getLast (ls : List (List Char)) (h : ls ≠ [])
    (hlast : ∀ l ∈ ls, l.getLast? = some '|') :
    (joinLines ls).getLast? = some '|' := by
  induction ls with
  | nil => exact absurd rfl h
  | cons x xs ih =>
    cases xs with
    | nil => exact hlast x (by simp)
    | cons y ys =>
      rw [joinLines_cons_of_ne x (y :: ys) (by simp)]
      have hys := ih (by simp) (fun l hl => hlast l (List.mem_cons.2 (Or.inr hl)))
      have hne : joinLines (y :: ys) ≠ [] := by
        intro hnil
        rw [hnil] at hys
        simp at hys
      obtain ⟨j, js, hjs⟩ := List.exists_cons_of_ne_nil hne
      rw [List.getLast?_append_of_ne_nil _ (by simp), hjs, List.getLast?_cons_cons, ← hjs]
      exact hys

/-! ### The claims -/

/-- Claim C1, counterexample: at row width 0 the render does fail with the
error result, but the output sink is not empty — the message
"Invalid HexView::width" has been written to it before the failure is
signalled, so "produces no output bytes at all" is false. -/
theorem claim_C1_counterexample :
    (HexView.fmt exC1).2 = Except.error () ∧ (HexView.fmt exC1).1 ≠ [] :=
  ⟨rfl, by decide⟩

/-- Claim C1, amended: for every configuration with row_width = 0 the render
fails synchronously with the invalid-layout error and emits no hex-dump rows,
but it first writes the fixed message "Invalid HexView::width" to the output
sink (the output is exactly that message, not empty). -/
theorem claim_C1_amended (v : HexView) (h0 : v.row_width = 0) :
    v.fmt = (("Invalid HexView::width").data, Except.error ()) ∧ v.rows = [] := by
  constructor
  · simp only [HexView.fmt]
    rw [dif_pos h0]
  · simp only [HexView.rows]
    rw [dif_pos h0]

/-- Claim C1, witness for the amended theorem at a concrete configuration. -/
theorem claim_C1_witness :
    exC1w.row_width = 0 ∧
    (exC1w.fmt = (("Invalid HexView::width").data, Except.error ()) ∧ exC1w.rows = []) :=
  ⟨rfl, claim_C1_amended exC1w rfl⟩

/-- Claim C2, counterexample: for empty data at offset 0 and row width 16 the
render succeeds and emits one row, but ceil((begin_padding + 0) / 16) = 0, so
the claimed exact formula fails in the degenerate case. -/
theorem claim_C2_counterexample :
    (HexView.fmt exC2).2 = Except.ok () ∧
    (HexView.rows exC2).length ≠
      (calculate_begin_padding exC2.address_offset exC2.row_width + exC2.data.length +
        exC2.row_width - 1) / exC2.row_width :=
  ⟨rfl, by decide⟩

/-- Claim C2, amended: a successful render emits
max(1, ceil((begin_padding(O,W) + L) / W)) lines — the ceiling formula holds
exactly whenever begin_padding + L > 0, and the degenerate empty aligned
render still emits one line. -/
theorem claim_C2_amended (v : HexView) (hw : 0 < v.row_width) :
    (v.fmt).2 = Except.ok () ∧
    (v.fmt).1 = joinLines ((v.rows).map (renderRow v.codepage)) ∧
    (v.rows).length = max 1 ((calculate_begin_padding v.address_offset v.row_width +
      v.data.length + v.row_width - 1) / v.row_width) := by
  have hw0 : v.row_width ≠ 0 := by omega
  have hfm := fmt_eq v hw0
  exact ⟨by rw [hfm], by rw [hfm], rows_length v hw0⟩

/-- Claim C2, witness for the amended theorem at a concrete configuration. -/
theorem claim_C2_witness :
    0 < exC2w.row_width ∧
    ((exC2w.fmt).2 = Except.ok () ∧
     (exC2w.fmt).1 = joinLines ((exC2w.rows).map (renderRow exC2w.codepage)) ∧
     (exC2w.rows).length = max 1 ((calculate_begin_padding exC2w.address_offset
        exC2w.row_width + exC2w.data.length + exC2w.row_width - 1) / exC2w.row_width)) :=
  ⟨by decide, claim_C2_amended exC2w (by decide)⟩

/-- Claim C3: whenever begin_padding + data.len() + end_padding fits in one
row, the render succeeds and emits exactly one line covering the whole
buffer, left-padded by begin_padding and right-padded by end_padding. -/
theorem claim_C3_single_row (v : HexView) (hw : v.row_width ≠ 0)
    (hfit : calculate_begin_padding v.address_offset v.row_width + v.data.length +
      calculate_end_padding (calculate_begin_padding v.address_offset v.row_width +
        v.data.length) v.row_width ≤ v.row_width) :
    v.rows = [⟨v.address_offset - calculate_begin_padding v.address_offset v.row_width,
      v.data,
      Padding.new (calculate_begin_padding v.address_offset v.row_width)
        (calculate_end_padding (calculate_begin_padding v.address_offset v.row_width +
          v.data.length) v.row_width)⟩] ∧
    (v.fmt).2 = Except.ok () ∧
    (v.fmt).1 = renderRow v.codepage
      ⟨v.address_offset - calculate_begin_padding v.address_offset v.row_width,
       v.data,
       Padding.new (calculate_begin_padding v.address_offset v.row_width)
         (calculate_end_padding (calculate_begin_padding v.address_offset v.row_width +
           v.data.length) v.row_width)⟩ := by
  obtain ⟨ao, cp, data, w⟩ := v
  have hfit' : data.length + calculate_begin_padding ao w +
      calculate_end_padding (calculate_begin_padding ao w + data.length) w ≤ w := by
    have := hfit
    dsimp only at this
    omega
  have hrows := rows_single ao cp data w hw hfit'
  refine ⟨hrows, ?_, ?_⟩
  · rw [fmt_eq _ hw]
  · rw [fmt_eq _ hw]
    show joinLines ((HexView.rows ⟨ao, cp, data, w⟩).map (renderRow cp)) = _
    rw [hrows]
    simp [joinLines]

/-- Claim C3, witness at a concrete single-row configuration. -/
theorem claim_C3_witness :
    exC3.row_width ≠ 0 ∧
    (calculate_begin_padding exC3.address_offset exC3.row_width + exC3.data.length +
      calculate_end_padding (calculate_begin_padding exC3.address_offset exC3.row_width +
        exC3.data.length) exC3.row_width ≤ exC3.row_width) ∧
    (exC3.rows = [⟨exC3.address_offset - calculate_begin_padding exC3.address_offset
        exC3.row_width, exC3.data,
        Padding.new (calculate_begin_padding exC3.address_offset exC3.row_width)
          (calculate_end_padding (calculate_begin_padding exC3.address_offset
            exC3.row_width + exC3.data.length) exC3.row_width)⟩] ∧
     (exC3.fmt).2 = Except.ok () ∧
     (exC3.fmt).1 = renderRow exC3.codepage
       ⟨exC3.address_offset - calculate_begin_padding exC3.address_offset exC3.row_width,
        exC3.data,
        Padding.new (calculate_begin_padding exC3.address_offset exC3.row_width)
          (calculate_end_padding (calculate_begin_padding exC3.address_offset
            exC3.row_width + exC3.data.length) exC3.row_width)⟩) :=
  ⟨by decide, by decide, claim_C3_single_row exC3 (by decide) (by decide)⟩

/-- Claim C4: begin_padding is exactly the offset modulo the row width, is
strictly below the row width, and vanishes on aligned offsets. -/
theorem claim_C4_begin_padding (a w : Nat) (hw : w ≠ 0) :
    calculate_begin_padding a w = a % w ∧
    calculate_begin_padding a w < w ∧
    (a % w = 0 → calculate_begin_padding a w = 0) :=
  ⟨rfl, begin_padding_lt a w hw, fun h => h⟩

/-- Claim C4, witness at the values of the repository's own unit test. -/
theorem claim_C4_witness :
    (16 : Nat) ≠ 0 ∧
    (calculate_begin_padding 54 16 = 54 % 16 ∧
     calculate_begin_padding 54 16 < 16 ∧
     (54 % 16 = 0 → calculate_begin_padding 54 16 = 0)) :=
  ⟨by decide, claim_C4_begin_padding 54 16 (by decide)⟩

/-- Claim C5: end_padding is (w - len mod w) mod w, strictly below w, and
vanishes exactly on aligned lengths. -/
theorem claim_C5_end_padding (len w : Nat) (hw : w ≠ 0) :
    calculate_end_padding len w = (w - len % w) % w ∧
    calculate_end_padding len w < w ∧
    (calculate_end_padding len w = 0 ↔ len % w = 0) :=
  ⟨rfl, end_padding_lt len w hw, end_padding_eq_zero_iff len w hw⟩

/-- Claim C5, witness at a concrete length and width. -/
theorem claim_C5_witness :
    (16 : Nat) ≠ 0 ∧
    (calculate_end_padding 10 16 = (16 - 10 % 16) % 16 ∧
     calculate_end_padding 10 16 < 16 ∧
     (calculate_end_padding 10 16 = 0 ↔ 10 % 16 = 0)) :=
  ⟨by decide, claim_C5_end_padding 10 16 (by decide)⟩

/-- Claim C6, counterexample: the empty aligned render succeeds but its single
emitted line has 0 byte-column slots, not row_width = 16, so "every emitted
line renders exactly W slots" fails. -/
theorem claim_C6_counterexample :
    (HexView.fmt exC6).2 = Except.ok () ∧
    ¬ (∀ r ∈ HexView.rows exC6, rowSlots r = exC6.row_width) :=
  ⟨rfl, by decide⟩

/-- Claim C6, amended: in every successful render whose padded length
begin_padding + L is nonzero (i.e. except the degenerate empty aligned
render), every emitted line spans exactly W byte-column slots; its character
column is exactly W characters and its hex column exactly 3W - 1 characters. -/
theorem claim_C6_amended (v : HexView) (hw : v.row_width ≠ 0)
    (hT : calculate_begin_padding v.address_offset v.row_width + v.data.length ≠ 0)
    (hb : ∀ b ∈ v.data, b < 256) :
    ∀ r ∈ v.rows, rowSlots r = v.row_width ∧
      (fmt_bytes_as_char v.codepage r.bytes r.padding).length = v.row_width ∧
      (fmt_bytes_as_hex r.bytes r.padding).length = 3 * v.row_width - 1 := by
  intro r hr
  have hslots := rows_slots v hw hT r hr
  have hbr : ∀ b ∈ r.bytes, b < 256 := by
    intro b hbm
    apply hb
    have hfl := rows_flatten v hw
    rw [← hfl]
    exact List.mem_flatten.2 ⟨r.bytes, List.mem_map_of_mem Row.bytes hr, hbm⟩
  simp only [rowSlots] at hslots ⊢
  refine ⟨hslots, ?_, ?_⟩
  · rw [fmt_bytes_as_char_length]
    exact hslots
  · rw [fmt_bytes_as_hex_length r.bytes r.padding hbr, if_neg (by omega), hslots]

/-- Claim C6, witness for the amended theorem at a concrete configuration. -/
theorem claim_C6_witness :
    exC6w.row_width ≠ 0 ∧
    (calculate_begin_padding exC6w.address_offset exC6w.row_width +
      exC6w.data.length ≠ 0) ∧
    (∀ b ∈ exC6w.data, b < 256) ∧
    (∀ r ∈ exC6w.rows, rowSlots r = exC6w.row_width ∧
      (fmt_bytes_as_char exC6w.codepage r.bytes r.padding).length = exC6w.row_width ∧
      (fmt_bytes_as_hex r.bytes r.padding).length = 3 * exC6w.row_width - 1) :=
  ⟨by decide, by decide, by decide,
    claim_C6_amended exC6w (by decide) (by decide) (by decide)⟩

/-- Claim C7: the output of a successful render is the emitted lines joined
by single newlines; there is at least one line; the separator newlines are
the only newlines (their count is lines - 1, so a single-line render has no
newline at all); and the output ends with the closing pipe, never with a
newline.  The codepage hypothesis is the mapper contract: the table supplies
display characters, not a newline. -/
theorem claim_C7_newlines (v : HexView) (hw : v.row_width ≠ 0)
    (hcp : ∀ c ∈ v.codepage, c ≠ '\n') :
    (v.fmt).2 = Except.ok () ∧
    (v.fmt).1 = joinLines ((v.rows).map (renderRow v.codepage)) ∧
    v.rows ≠ [] ∧
    (v.fmt).1.count '\n' = (v.rows).length - 1 ∧
    (v.fmt).1.getLast? = some '|' ∧
    (v.fmt).1.getLast? ≠ some '\n' := by
  have hfm := fmt_eq v hw
  have hne := rows_ne_nil v hw
  have hlines : ∀ l ∈ (v.rows).map (renderRow v.codepage), '\n' ∉ l := by
    intro l hl
    obtain ⟨r, hr, rfl⟩ := List.mem_map.1 hl
    intro hmem
    exact mem_fmt_line_ne_newline r.address v.codepage r.bytes r.padding hcp '\n' hmem rfl
  have hlast : (v.fmt).1.getLast? = some '|' := by
    rw [hfm]
    show (joinLines ((v.rows).map (renderRow v.codepage))).getLast? = some '|'
    apply joinLines_getLast
    · intro hmn
      exact hne (List.map_eq_nil_iff.mp hmn)
    · intro l hl
      obtain ⟨r, hr, rfl⟩ := List.mem_map.1 hl
      exact fmt_line_getLast r.address v.codepage r.bytes r.padding
  refine ⟨by rw [hfm], by rw [hfm], hne, ?_, hlast, ?_⟩
  · rw [hfm]
    show (joinLines ((v.rows).map (renderRow v.codepage))).count '\n' = _
    rw [joinLines_count_newline _ hlines, List.length_map]
  · rw [hlast]
    decide

set_option maxRecDepth 4000 in
/-- Claim C7, witness at a concrete configuration with the built-in codepage. -/
theorem claim_C7_witness :
    exC7.row_width ≠ 0 ∧
    (∀ c ∈ exC7.codepage, c ≠ '\n') ∧
    ((exC7.fmt).2 = Except.ok () ∧
     (exC7.fmt).1 = joinLines ((exC7.rows).map (renderRow exC7.codepage)) ∧
     exC7.rows ≠ [] ∧
     (exC7.fmt).1.count '\n' = (exC7.rows).length - 1 ∧
     (exC7.fmt).1.getLast? = some '|' ∧
     (exC7.fmt).1.getLast? ≠ some '\n') :=
  ⟨by decide, by decide, claim_C7_newlines exC7 (by decide) (by decide)⟩

/-- Claim C8: empty data renders successfully as exactly one row with no real
bytes; when begin_padding is nonzero its begin and end paddings together span
the full row width (split across both sides); when begin_padding is zero the
single row is empty — both paddings are zero, so it consists of placeholder
columns only (vacuously: it has no byte columns at all). -/
theorem claim_C8_empty (v : HexView) (hw : v.row_width ≠ 0) (hL : v.data = []) :
    (v.fmt).2 = Except.ok () ∧
    v.rows = [⟨v.address_offset - calculate_begin_padding v.address_offset v.row_width, [],
      Padding.new (calculate_begin_padding v.address_offset v.row_width)
        (calculate_end_padding (calculate_begin_padding v.address_offset v.row_width)
          v.row_width)⟩] ∧
    (calculate_begin_padding v.address_offset v.row_width ≠ 0 →
      calculate_begin_padding v.address_offset v.row_width +
        calculate_end_padding (calculate_begin_padding v.address_offset v.row_width)
          v.row_width = v.row_width) ∧
    (calculate_begin_padding v.address_offset v.row_width = 0 →
      calculate_end_padding (calculate_begin_padding v.address_offset v.row_width)
        v.row_width = 0) := by
  obtain ⟨ao, cp, data, w⟩ := v
  dsimp only at hL ⊢
  subst hL
  have hbplt := begin_padding_lt ao w hw
  have hepz : calculate_begin_padding ao w = 0 →
      calculate_end_padding (calculate_begin_padding ao w) w = 0 := by
    intro hbz
    rw [hbz]
    exact (end_padding_eq_zero_iff 0 w hw).2 (Nat.zero_mod w)
  have hepw : calculate_begin_padding ao w ≠ 0 →
      calculate_begin_padding ao w +
        calculate_end_padding (calculate_begin_padding ao w) w = w := by
    intro hbp0
    have := end_padding_of_mod_pos (calculate_begin_padding ao w) w hw
      (by rwa [Nat.mod_eq_of_lt hbplt])
    rw [this, Nat.mod_eq_of_lt hbplt]
    omega
  have hfit : (List.length ([] : List Nat)) + calculate_begin_padding ao w +
      calculate_end_padding (calculate_begin_padding ao w +
        List.length ([] : List Nat)) w ≤ w := by
    simp only [List.length_nil, Nat.add_zero, Nat.zero_add]
    by_cases hbp0 : calculate_begin_padding ao w = 0
    · have := hepz hbp0
      omega
    · have := hepw hbp0
      omega
  have hrows := rows_single ao cp [] w hw hfit
  simp only [List.length_nil, Nat.add_zero] at hrows
  exact ⟨by rw [fmt_eq _ hw], hrows, hepw, hepz⟩

/-- Claim C8, witness at a concrete empty configuration. -/
theorem claim_C8_witness :
    exC8.row_width ≠ 0 ∧ exC8.data = [] ∧
    ((exC8.fmt).2 = Except.ok () ∧
     exC8.rows = [⟨exC8.address_offset - calculate_begin_padding exC8.address_offset
        exC8.row_width, [],
        Padding.new (calculate_begin_padding exC8.address_offset exC8.row_width)
          (calculate_end_padding (calculate_begin_padding exC8.address_offset
            exC8.row_width) exC8.row_width)⟩] ∧
     (calculate_begin_padding exC8.address_offset exC8.row_width ≠ 0 →
       calculate_begin_padding exC8.address_offset exC8.row_width +
         calculate_end_padding (calculate_begin_padding exC8.address_offset
           exC8.row_width) exC8.row_width = exC8.row_width) ∧
     (calculate_begin_padding exC8.address_offset exC8.row_width = 0 →
       calculate_end_padding (calculate_begin_padding exC8.address_offset
         exC8.row_width) exC8.row_width = 0)) :=
  ⟨by decide, rfl, claim_C8_empty exC8 (by decide) rfl⟩

/-- Claim C9: the 16 bytes 0x40..0x4F at offset 0 with row width 16 render as
the single expected line, with the address as 8-digit zero-padded uppercase
hex and no padding on either side. -/
theorem claim_C9_scenario :
    (HexView.fmt exC9).1 =
      ("00000000  40 41 42 43 44 45 46 47 48 49 4A 4B 4C 4D 4E 4F  | @ABCDEFGHIJKLMNO |").data ∧
    (HexView.fmt exC9).2 = Except.ok () ∧
    HexView.rows exC9 = [⟨0, exC9.data, Padding.new 0 0⟩] ∧
    toPaddedHex 8 0 = ("00000000").data :=
  ⟨by decide, rfl, by decide, by decide⟩

/-- Claim C10: for every row width > 0 the render is total and succeeds; the
address subtraction cannot underflow (begin_padding ≤ address_offset); in the
multi-row branch with an unaligned start, the first slice bound
row_width - begin_padding is within the data; and the emitted rows' bytes,
concatenated, are exactly the data — every slice the algorithm takes is in
bounds and the data is covered once. -/
theorem claim_C10_safety (v : HexView) (hw : 0 < v.row_width) :
    (v.fmt).2 = Except.ok () ∧
    calculate_begin_padding v.address_offset v.row_width ≤ v.address_offset ∧
    (¬ (v.data.length + calculate_begin_padding v.address_offset v.row_width +
        calculate_end_padding (calculate_begin_padding v.address_offset v.row_width +
          v.data.length) v.row_width ≤ v.row_width) →
      calculate_begin_padding v.address_offset v.row_width ≠ 0 →
      v.row_width - calculate_begin_padding v.address_offset v.row_width ≤
        v.data.length) ∧
    ((v.rows).map Row.bytes).flatten = v.data := by
  have hw0 : v.row_width ≠ 0 := by omega
  refine ⟨by rw [fmt_eq v hw0], begin_padding_le _ _, ?_, rows_flatten v hw0⟩
  intro hmulti hbp0
  have hwle := multi_w_le _ _ _ hw0 hmulti
  have hbplt := begin_padding_lt v.address_offset v.row_width hw0
  omega

/-- Claim C10, witness at a concrete configuration. -/
theorem claim_C10_witness :
    0 < exC10.row_width ∧
    ((exC10.fmt).2 = Except.ok () ∧
     calculate_begin_padding exC10.address_offset exC10.row_width ≤
       exC10.address_offset ∧
     (¬ (exC10.data.length + calculate_begin_padding exC10.address_offset
          exC10.row_width +
         calculate_end_padding (calculate_begin_padding exC10.address_offset
           exC10.row_width + exC10.data.length) exC10.row_width ≤ exC10.row_width) →
       calculate_begin_padding exC10.address_offset exC10.row_width ≠ 0 →
       exC10.row_width - calculate_begin_padding exC10.address_offset exC10.row_width ≤
         exC10.data.length) ∧
     ((exC10.rows).map Row.bytes).flatten = exC10.data) :=
  ⟨by decide, claim_C10_safety exC10 (by decide)⟩

end Hexplay
